import Mathlib

/-!
Verification of the splat static photo gallery generator core
(`src/main.rs`, `src/metadata.rs`, `src/process.rs`).

Paths are modelled as lists of components (`FsPath := List String`), mirroring
`std::path::PathBuf` seen as its sequence of components.  Filesystem state is
modelled in two independent ways, matching how the source consumes it:

* an `FsTree` value mirrors the directory tree scanned by `Collection::new`
  (entries in `read_dir` enumeration order, file contents for `index.md`,
  a readability flag standing for I/O success of `File::open`/`read_to_string`);
* a `StatFs` record mirrors the `Path::exists` / `metadata()?.modified()?`
  queries made by the staleness check (`is_older`, `Item::needs_update`).
-/

/-- A filesystem path, as its list of components (mirrors `std::path::PathBuf`). -/
abbrev FsPath := List String

/-- Function `Path::strip_prefix`: drop `root` from the front of `p`, erring when `root`
is not a prefix of `p`. -/
def stripRoot (root p : FsPath) : Except String FsPath :=
  if root.isPrefixOf p then .ok (p.drop root.length) else .error "StripPrefixError"

/-- The part of `BuildConfig` consumed by the scanning core: input root and
output root (`config.toml.input` / `config.toml.output`). -/
structure Config where
  input : FsPath
  output : FsPath
deriving DecidableEq

/-- Structure `Item` from `src/main.rs`: one source image with its derived output and
thumbnail paths.  `from` is a Lean keyword, hence `from_`. -/
structure Item where
  /-- Source image (`from`). -/
  from_ : FsPath
  /-- Target image (`to`). -/
  to_ : FsPath
  /-- Thumbnail generated from `from` (`thumbnail`). -/
  thumbnail : FsPath
deriving DecidableEq

/-- Constructor `Item::new`: re-root the source path from the input root to the output
root; the thumbnail lives in a sibling `thumbnails/` directory of the output,
with the source's file name. -/
def itemNew (path : FsPath) (cfg : Config) : Except String Item :=
  match stripRoot cfg.input path with
  | .error e => .error e
  | .ok rel =>
    let dest := cfg.output ++ rel
    if dest = [] then .error "No parent"
    else
      match path.getLast? with
      | none => .error "Path ends in .."
      | some name => .ok ⟨path, dest, dest.dropLast ++ ["thumbnails", name]⟩

/-- The filesystem as seen by the staleness oracle: existence and modification
time of a path.  `mtime p = .error ()` models `p.metadata()?.modified()?`
failing. -/
structure StatFs where
  exists_ : FsPath → Bool
  mtime : FsPath → Except Unit Nat

/-- Function `is_older` from `src/process.rs`: strictly compares modification times,
propagating metadata read errors. -/
def isOlder (fs : StatFs) (first second : FsPath) : Except Unit Bool := do
  let a ← fs.mtime first
  let b ← fs.mtime second
  pure (a < b)

/-- Method `Item::needs_update` from `src/main.rs`: the full-size output is missing,
or it is strictly older than the source (`unwrap_or_default`: a metadata read
error counts as `false`), or the thumbnail is missing. -/
def Item.needsUpdate (fs : StatFs) (it : Item) : Bool :=
  !(fs.exists_ it.to_)
    || ((isOlder fs it.to_ it.from_).toOption.getD false)
    || !(fs.exists_ it.thumbnail)

/-- Method `Item::thumbnail_outdated` from `src/main.rs` (defined there but not
consulted by `needs_update`). -/
def Item.thumbnailOutdated (fs : StatFs) (it : Item) : Except Unit Bool :=
  isOlder fs it.thumbnail it.from_

/-- Predicate `is_stale` as the specification words it (spec §4.3): the output does not
exist, or its modification time is strictly older than the source's.  Stated
from the spec, to compare against the code's `Item.needsUpdate`. -/
def isStaleSpec (fs : StatFs) (out src : FsPath) : Prop :=
  fs.exists_ out = false
    ∨ ∃ a b, fs.mtime out = .ok a ∧ fs.mtime src = .ok b ∧ a < b

/-- A breadcrumb link (`Link` in `src/main.rs`). -/
structure Link where
  title : String
  path : String
deriving DecidableEq

/-- The relative path carried by the breadcrumb at reverse-distance `d`:
`"."` followed by `d` repetitions of `"/.."`. -/
def dotsPath : Nat → String
  | 0 => "."
  | n + 1 => dotsPath n ++ "/.."

/-- The mapping pass of `breadcrumbs_to_links`: walk the reversed breadcrumb
list, emitting the accumulated path and extending it by `"/.."` each step. -/
def breadcrumbsToLinksAux (path : String) : List String → List Link
  | [] => []
  | b :: rest => ⟨b, path⟩ :: breadcrumbsToLinksAux (path ++ "/..") rest

/-- Function `breadcrumbs_to_links` from `src/main.rs`: map over the reversed list with
a growing `"./.."`-style accumulator, then reverse the result back. -/
def breadcrumbsToLinks (breadcrumbs : List String) : List Link :=
  (breadcrumbsToLinksAux "." breadcrumbs.reverse).reverse

/-- Function `output_path_to_root` from `src/main.rs`: `(segment_count - 1)`
repetitions of `".."`. -/
def outputPathToRoot (output : FsPath) : FsPath :=
  (List.range (output.length - 1)).map (fun _ => "..")

mutual
/-- The directory tree scanned by `Collection::new`.  A file carries its
modification time, a readability flag (standing for I/O success of reading
its contents) and its contents; a directory carries its entries in `read_dir`
enumeration order. -/
inductive FsTree where
  | file : Nat → Bool → String → FsTree
  | dir : FsEntries → FsTree
deriving DecidableEq

/-- The entry list of a directory, in enumeration order. -/
inductive FsEntries where
  | nil : FsEntries
  | cons : String → FsTree → FsEntries → FsEntries
deriving DecidableEq
end

/-- Test `Path::is_dir` for an entry already resolved to its tree node. -/
def FsTree.isDir : FsTree → Bool
  | .dir _ => true
  | .file _ _ _ => false

/-- Test `Path::is_file` for an entry already resolved to its tree node. -/
def FsTree.isFile : FsTree → Bool
  | .dir _ => false
  | .file _ _ _ => true

/-- Look up a direct entry of a directory by name (first match, as on a real
filesystem where names are unique). -/
def findEntry : FsEntries → String → Option FsTree
  | .nil, _ => none
  | .cons name t rest, n => if name = n then some t else findEntry rest n

/-- Resolve a relative path (list of components) inside a subtree; `isSome`
of the result models `Path::exists` relative to that subtree's directory. -/
def lookupRel : FsTree → List String → Option FsTree
  | t, [] => some t
  | .file _ _ _, _ :: _ => none
  | .dir es, s :: rest =>
    match findEntry es s with
    | some t => lookupRel t rest
    | none => none

/-- Split a character list on a separator character (splitter underlying the
line/extension/component decompositions). -/
def splitChar (sep : Char) : List Char → List (List Char)
  | [] => [[]]
  | c :: rest =>
    if c = sep then [] :: splitChar sep rest
    else
      match splitChar sep rest with
      | [] => [[c]]
      | l :: ls => (c :: l) :: ls

/-- Function `str::lines` from Rust: split on `'\n'`, drop a final empty piece, and
strip one trailing `'\r'` from each line. -/
def rustLines (cs : List Char) : List (List Char) :=
  let parts := splitChar '\n' cs
  let parts := if parts.getLast? = some [] then parts.dropLast else parts
  parts.map (fun l => if l.getLast? = some '\r' then l.dropLast else l)

/-- Function `Path::extension` on a file name: the part after the last `'.'`, none when
there is no `'.'` or the name is a dot-file with no other `'.'`. -/
def extension (name : String) : Option String :=
  match splitChar '.' name.data with
  | [] => none
  | [_] => none
  | [stem, ext] => if stem = [] then none else some ext.asString
  | _ :: _ :: p :: ps => some ((p :: ps).getLast (by simp)).asString

/-- The extension allow-list test from `Collection::new` in `src/main.rs`:
`ext == "JPG" || ext == "jpg" || ext == "JPEG" || ext == "jpeg"`. -/
def isJpegExt (e : String) : Bool :=
  e == "JPG" || e == "jpg" || e == "JPEG" || e == "jpeg"

/-- The file classifier of `Collection::new`: a directory entry becomes an
image item when it is a file and its extension passes `isJpegExt`
(`e.path().is_file() && e.path().extension().is_some_and(..)`). -/
def isImageEntry (name : String) (t : FsTree) : Bool :=
  t.isFile && ((extension name).map isJpegExt).getD false

/-- ASCII lower-casing of one character (for the case-insensitive reading). -/
def asciiLower (c : Char) : Char :=
  if 'A' ≤ c ∧ c ≤ 'Z' then Char.ofNat (c.toNat + 32) else c

/-- ASCII lower-casing of a string. -/
def lowerStr (s : String) : String :=
  (s.data.map asciiLower).asString

/-- The classifier as the specification words it (spec §4.2): a
case-insensitive allow-list of the extensions `jpg` and `jpeg`.  Stated from
the spec, to compare against the code's `isImageEntry`. -/
def isImageEntrySpec (name : String) (t : FsTree) : Prop :=
  t.isFile = true
    ∧ ∃ e, extension name = some e ∧ (lowerStr e = "jpg" ∨ lowerStr e = "jpeg")

/-- Structure `Metadata` from `src/metadata.rs`. -/
structure Metadata where
  /-- Free text description (the body after the `Key: value` header; its
  markdown-to-HTML conversion is an external collaborator per spec §1 and is
  not modelled). -/
  description : String
  /-- Title, defaulting to the directory's base name. -/
  title : String
  /-- Thumbnail override, kept only when the referenced path exists. -/
  thumbnail : Option FsPath
deriving DecidableEq

/-- Function `path_to_string` from `src/metadata.rs`: the path's file name, or the
empty string when there is none. -/
def pathToString (p : FsPath) : String :=
  p.getLast?.getD ""

mutual
/-- The single-line matcher for the header regex `([[:alpha:]]+): (.+)` of
`src/metadata.rs` (unanchored search, leftmost match): scan for an ASCII
alphabetic run immediately followed by `": "` and at least one further
character. -/
def findKV : List Char → Option (String × String)
  | [] => none
  | c :: rest =>
    if c.isAlpha then matchRun [c] rest else findKV rest

/-- Helper of `findKV`: inside an alphabetic run with accumulator `acc`. -/
def matchRun (acc : List Char) : List Char → Option (String × String)
  | [] => none
  | d :: rest =>
    if d.isAlpha then matchRun (acc ++ [d]) rest
    else if d = ':' then
      match rest with
      | ' ' :: r :: rs => some (acc.asString, (r :: rs).asString)
      | _ => findKV rest
    else findKV rest
end

/-- The matching phase of `from_str`: consume the leading run of `Key: value`
lines; the remaining lines (starting with the first non-matching one) form
the body. -/
def parseHeader : List (List Char) → List (String × String) × List (List Char)
  | [] => ([], [])
  | l :: rest =>
    match findKV l with
    | some kv =>
      let r := parseHeader rest
      (kv :: r.1, r.2)
    | none => ([], l :: rest)

/-- The `HashMap` lookup after last-value-wins insertion: the last pair with the
given key. -/
def lookupLast (kvs : List (String × String)) (k : String) : Option String :=
  ((kvs.filter (fun kv => kv.1 == k)).getLast?).map (fun kv => kv.2)

/-- The body lines re-joined, each followed by `'\n'`
(`description.push_str(line); description.push('\n')`). -/
def bodyText (body : List (List Char)) : String :=
  (body.foldr (fun l acc => l ++ '\n' :: acc) []).asString

/-- The `Thumbnail` key resolution of `from_str`: join the directory path with
the value (split into components) and keep it only when it exists
(`.map(|s| path.join(s)).filter(|path| path.exists())`). -/
def metaThumbOf (current : FsPath) (t : FsTree) (keys : List (String × String)) :
    Option FsPath :=
  match lookupLast keys "Thumbnail" with
  | none => none
  | some s =>
    let rel := (splitChar '/' s.data).map List.asString
    if (lookupRel t rel).isSome then some (current ++ rel) else none

/-- Function `from_str` from `src/metadata.rs`: parse the `Key: value` header, collect
the body, resolve `Thumbnail` and `Title`. -/
def metadataFromStr (current : FsPath) (t : FsTree) (content : String) : Metadata :=
  let r := parseHeader (rustLines content.data)
  { description := bodyText r.2
    title := (lookupLast r.1 "Title").getD (pathToString current)
    thumbnail := metaThumbOf current t r.1 }

/-- Function `Metadata::from_path` from `src/metadata.rs`, for the directory with
entries `entries` at path `current`: defaults when `index.md` does not exist;
an I/O failure reading it (unreadable file, or a directory named `index.md`)
is an error. -/
def metadataOf (current : FsPath) (entries : FsEntries) : Except String Metadata :=
  match findEntry entries "index.md" with
  | none => .ok ⟨"", pathToString current, none⟩
  | some (.dir _) => .error "index.md unreadable"
  | some (.file _ readable content) =>
    if readable then .ok (metadataFromStr current (.dir entries) content)
    else .error "index.md unreadable"

mutual
/-- Structure `Collection` from `src/main.rs`: path, child collections, image items,
parsed metadata, resolved thumbnail. -/
inductive Collection where
  | mk : FsPath → CollectionList → List Item → Metadata → FsPath → Collection
deriving DecidableEq

/-- Child collections, in discovery order. -/
inductive CollectionList where
  | nil : CollectionList
  | cons : Collection → CollectionList → CollectionList
deriving DecidableEq
end

/-- Accessor `Collection.path`. -/
def Collection.path : Collection → FsPath
  | .mk p _ _ _ _ => p

/-- Accessor `Collection.collections` (child collections). -/
def Collection.collections : Collection → CollectionList
  | .mk _ cs _ _ _ => cs

/-- Accessor `Collection.items` (direct image items). -/
def Collection.items : Collection → List Item
  | .mk _ _ its _ _ => its

/-- Accessor `Collection.metadata`. -/
def Collection.metadata : Collection → Metadata
  | .mk _ _ _ m _ => m

/-- Accessor `Collection.thumbnail` (the resolved collection thumbnail). -/
def Collection.thumbnail : Collection → FsPath
  | .mk _ _ _ _ th => th

/-- The `collections.first()` call on the child list. -/
def CollectionList.first? : CollectionList → Option Collection
  | .nil => none
  | .cons c _ => some c

/-- View a `CollectionList` as a `List`. -/
def CollectionList.toList : CollectionList → List Collection
  | .nil => []
  | .cons c rest => c :: rest.toList

/-- The names of the direct entries classified as image files, in enumeration
order (`read_dir .. filter(is_file && extension allow-list)`). -/
def imageNames : FsEntries → List String
  | .nil => []
  | .cons name t rest =>
    if isImageEntry name t then name :: imageNames rest else imageNames rest

/-- The `collect` into a `Result` of a `Vec` over `Item::new` results: first error wins. -/
def mapItems (cfg : Config) (current : FsPath) : List String → Except String (List Item)
  | [] => .ok []
  | n :: ns =>
    match itemNew (current ++ [n]) cfg with
    | .error e => .error e
    | .ok it =>
      match mapItems cfg current ns with
      | .error e => .error e
      | .ok its => .ok (it :: its)

/-- The `items` construction of `Collection::new`: each image entry through
`Item::new`, collected into a `Result` (first error wins). -/
def itemsOf (cfg : Config) (current : FsPath) (entries : FsEntries) :
    Except String (List Item) :=
  mapItems cfg current (imageNames entries)

/-- Test `Vec::is_empty` on a child-collection list. -/
def CollectionList.isEmpty : CollectionList → Bool
  | .nil => true
  | .cons _ _ => false

/-- The thumbnail resolution of `Collection::new` (`src/main.rs` lines
252-265): the metadata override, else the first item's source path, else the
first child collection's thumbnail, else the `"No thumbnail path"` error. -/
def resolveThumbnail (metaThumb : Option FsPath) (items : List Item)
    (children : CollectionList) : Except String FsPath :=
  match metaThumb with
  | some p => .ok p
  | none =>
    match items.head? with
    | some it => .ok it.from_
    | none =>
      match children.first? with
      | some c => .ok c.thumbnail
      | none => .error "No thumbnail path"

mutual
/-- Function `Collection::new` from `src/main.rs`: recursively scan `current`.  Child
collections come from the subdirectory entries, with erroring or empty
children dropped (`filter_map(Result::ok).flatten()`); items come from the
image files (errors propagate); an empty directory yields `none`; then the
metadata is read (errors propagate) and the thumbnail resolved. -/
def collectionNew (cfg : Config) (current : FsPath) : FsTree → Except String (Option Collection)
  | .file _ _ _ => .error "read_dir failed"
  | .dir entries =>
    let children := childCollections cfg current entries
    match itemsOf cfg current entries with
    | .error e => .error e
    | .ok items =>
      if items.isEmpty && children.isEmpty then .ok none
      else
        match metadataOf current entries with
        | .error e => .error e
        | .ok meta =>
          match resolveThumbnail meta.thumbnail items children with
          | .error e => .error e
          | .ok thumb => .ok (some (.mk current children items meta thumb))

/-- The child-collection scan of `Collection::new`: recurse into directory
entries, keeping only successful, non-pruned results. -/
def childCollections (cfg : Config) (current : FsPath) : FsEntries → CollectionList
  | .nil => .nil
  | .cons name t rest =>
    let tail := childCollections cfg current rest
    if t.isDir then
      match collectionNew cfg (current ++ [name]) t with
      | .ok (some c) => .cons c tail
      | _ => tail
    else tail
end

mutual
/-- Method `Collection::items()` from `src/main.rs`: all items of this subtree, own
items first, then the children's in order (depth-first). -/
def Collection.allItems : Collection → List Item
  | .mk _ cs its _ _ => its ++ cs.allItems

/-- The flattened items of a list of child collections. -/
def CollectionList.allItems : CollectionList → List Item
  | .nil => []
  | .cons c rest => c.allItems ++ rest.allItems
end

def itemC2 : Item := ⟨["in", "a.jpg"], ["out", "a.jpg"], ["out", "thumbnails", "a.jpg"]⟩

def statC2 : StatFs :=
  ⟨fun _ => true,
   fun p =>
     match p with
     | ["in", "a.jpg"] => .ok 5
     | ["out", "a.jpg"] => .ok 9
     | _ => .ok 1⟩

def statC10 : StatFs :=
  ⟨fun p => p ≠ ["out", "thumbnails", "a.jpg"], fun _ => .error ()⟩

/-- Shared demo configuration: input root `in`, output root `out`. -/
def cfgDemo : Config := ⟨["in"], ["out"]⟩

/-- Three images and a description file overriding the thumbnail to the
second image. -/
def entriesC1 : FsEntries :=
  .cons "1.jpg" (.file 0 true "")
    (.cons "2.jpg" (.file 0 true "")
      (.cons "3.jpg" (.file 0 true "")
        (.cons "index.md" (.file 0 true "Thumbnail: 2.jpg") .nil)))

/-- The collection built from `entriesC1`. -/
def collC1 : Collection :=
  .mk ["in"] .nil
    [⟨["in", "1.jpg"], ["out", "1.jpg"], ["out", "thumbnails", "1.jpg"]⟩,
     ⟨["in", "2.jpg"], ["out", "2.jpg"], ["out", "thumbnails", "2.jpg"]⟩,
     ⟨["in", "3.jpg"], ["out", "3.jpg"], ["out", "thumbnails", "3.jpg"]⟩]
    ⟨"", "in", some ["in", "2.jpg"]⟩ ["in", "2.jpg"]

/-- A directory with a single image. -/
def entriesC3 : FsEntries := .cons "test.jpg" (.file 0 true "") .nil

/-- The collection built from `entriesC3`. -/
def collC3 : Collection :=
  .mk ["in"] .nil
    [⟨["in", "test.jpg"], ["out", "test.jpg"], ["out", "thumbnails", "test.jpg"]⟩]
    ⟨"", "in", none⟩ ["in", "test.jpg"]

/-- Two image entries, of which only `a.JPG` passes the code's exact
extension comparison. -/
def entriesC5 : FsEntries :=
  .cons "a.JPG" (.file 0 true "") (.cons "b.Jpg" (.file 0 true "") .nil)

/-- The collection built from `entriesC5`: only `a.JPG` became an item. -/
def collC5 : Collection :=
  .mk ["in"] .nil
    [⟨["in", "a.JPG"], ["out", "a.JPG"], ["out", "thumbnails", "a.JPG"]⟩]
    ⟨"", "in", none⟩ ["in", "a.JPG"]

/-- Subdirectory whose `index.md` cannot be read. -/
def entriesC8sub : FsEntries :=
  .cons "index.md" (.file 0 false "") (.cons "x.jpg" (.file 0 true "") .nil)

/-- Root with one image and the failing subdirectory `a`. -/
def entriesC8 : FsEntries :=
  .cons "a" (.dir entriesC8sub) (.cons "y.jpg" (.file 0 true "") .nil)

/-- The collection built from `entriesC8`: the subtree `a` was skipped. -/
def collC8 : Collection :=
  .mk ["in"] .nil
    [⟨["in", "y.jpg"], ["out", "y.jpg"], ["out", "thumbnails", "y.jpg"]⟩]
    ⟨"", "in", none⟩ ["in", "y.jpg"]

/-- The per-item loop of `build` (`src/main.rs` lines 333-337): every item of
the batch is visited in turn; a failing item's error is reported (printed to
stderr) and the loop moves on.  The outcome of `process` for each item is an
oracle parameter, since image decoding and file I/O are external.  The result
collects the reported failure messages. -/
def pipelineReport (outcome : Item → Except String Unit) : List Item → List String
  | [] => []
  | it :: rest =>
    match outcome it with
    | .ok _ => pipelineReport outcome rest
    | .error e => e :: pipelineReport outcome rest

/-- Function `build` from `src/main.rs`, over the scanning core: input-root existence
check, tree discovery (`"No images found"` when the root prunes away), the
staleness filter, per-item processing with caught failures, then the HTML
stage.  Static-asset copying and theme pre-processing are external
collaborators (spec §1); the render stage's outcome is a parameter.  The
returned list carries the per-item failure messages that Rust prints while
returning `Ok(())`. -/
def build (cfg : Config) (root : Option FsTree) (fs : StatFs)
    (outcome : Item → Except String Unit) (render : Except String Unit) :
    Except String (List String) :=
  match root with
  | none => .error "input does not exist"
  | some t =>
    match collectionNew cfg cfg.input t with
    | .error e => .error e
    | .ok none => .error "No images found"
    | .ok (some c) =>
      let stale := c.allItems.filter (fun it => Item.needsUpdate fs it)
      let reported := pipelineReport outcome stale
      match render with
      | .error e => .error e
      | .ok _ => .ok reported

/-- Lexicographic strict comparison of character lists by code point: the
order `Ord`/`cmp` uses on Rust string slices (UTF-8 byte order coincides with
code-point order). -/
def charListLt : List Char → List Char → Bool
  | [], [] => false
  | [], _ :: _ => true
  | _ :: _, [] => false
  | a :: as, b :: bs =>
    if a.toNat < b.toNat then true
    else if b.toNat < a.toNat then false
    else charListLt as bs

/-- Strict string comparison (`str::cmp` as `Less`). -/
def strLtB (a b : String) : Bool := charListLt a.data b.data

/-- Non-strict string comparison (`str::cmp` as `Less | Equal`). -/
def strLeB (a b : String) : Bool := !(charListLt b.data a.data)

/-- Component-wise path comparison: `PathBuf::cmp` as `Less | Equal`. -/
def pathLe : FsPath → FsPath → Bool
  | [], _ => true
  | _ :: _, [] => false
  | a :: as, b :: bs =>
    if strLtB a b then true
    else if strLtB b a then false
    else pathLe as bs

/-- Structure `Image` from `src/main.rs` as handed to the template context. -/
structure Image where
  /-- File name of the full-size image. -/
  path : String
  /-- Path of the thumbnail relative to the collection page. -/
  thumbnail : FsPath
  /-- Width of the image. -/
  width : Nat
  /-- Height of the image. -/
  height : Nat
deriving DecidableEq

/-- Constructor `Image::new`: read the output file's dimensions (external image library,
passed as an oracle), take the output's file name as `path`, and place the
thumbnail's file name under `thumbnails/`. -/
def imageNew (dims : FsPath → Except String (Nat × Nat)) (it : Item) :
    Except String Image :=
  match dims it.to_ with
  | .error e => .error e
  | .ok (w, h) =>
    match it.to_.getLast? with
    | none => .error "not a file"
    | some name =>
      match it.thumbnail.getLast? with
      | none => .error "no file name"
      | some tn => .ok ⟨name, ["thumbnails", tn], w, h⟩

/-- Structure `Child` from `src/main.rs`. -/
structure Child where
  /-- Path to the collection (its directory name). -/
  path : String
  /-- Collection thumbnail, relative to the parent collection's page. -/
  thumbnail : FsPath
  /-- Title of the collection. -/
  title : String
deriving DecidableEq

/-- Constructor `Child::from`: the child's directory name plus its thumbnail re-rooted
relative to the parent directory into the child's `thumbnails/` folder. -/
def childFrom (c : Collection) : Except String Child :=
  if c.path = [] then .error "no parent"
  else
    match c.thumbnail.getLast? with
    | none => .error "no filename"
    | some fname =>
      match stripRoot c.path.dropLast c.thumbnail with
      | .error e => .error e
      | .ok rel =>
        if rel = [] then .error "no parent"
        else
          match c.path.getLast? with
          | none => .error "no filename"
          | some subdir =>
            .ok ⟨subdir, rel.dropLast ++ ["thumbnails", fname], c.metadata.title⟩

/-- The `collect` into a `Result` of a `Vec` over an arbitrary fallible constructor. -/
def collectResults {α β : Type} (f : α → Except String β) : List α → Except String (List β)
  | [] => .ok []
  | a :: rest =>
    match f a with
    | .error e => .error e
    | .ok b =>
      match collectResults f rest with
      | .error e => .error e
      | .ok bs => .ok (b :: bs)

/-- The image ordering of `write_html`: ascending by thumbnail path
(`a.thumbnail.cmp(&b.thumbnail)`). -/
def imageRel (a b : Image) : Prop := pathLe a.thumbnail b.thumbnail = true

/-- The child ordering of `write_html`: descending by title
(`b.title.cmp(a.title)`). -/
def childRel (a b : Child) : Prop := strLeB b.title a.title = true

instance : DecidableRel imageRel :=
  fun a b => inferInstanceAs (Decidable (pathLe a.thumbnail b.thumbnail = true))

instance : DecidableRel childRel :=
  fun a b => inferInstanceAs (Decidable (strLeB b.title a.title = true))

/-- Structure `Output` from `src/main.rs`: the context passed to the template. -/
structure Output where
  /-- Title of the collection. -/
  title : String
  /-- Description of the collection. -/
  description : String
  /-- Breadcrumb links leading to this collection. -/
  breadcrumbs : List Link
  /-- Subcollections. -/
  children : List Child
  /-- Images part of this collection. -/
  images : List Image
deriving DecidableEq

/-- The context assembly of `write_html` (`src/main.rs` lines 402-430): build
the images from the direct items and the children from the direct
subcollections, sort images ascending by thumbnail path and children
descending by title (Rust's stable `sort_by` is modelled by the stable
insertion sort), and attach breadcrumbs and metadata. -/
def renderContext (dims : FsPath → Except String (Nat × Nat)) (c : Collection)
    (breadcrumbs : List String) : Except String Output :=
  match collectResults (imageNew dims) c.items with
  | .error e => .error e
  | .ok imgs =>
    match collectResults childFrom c.collections.toList with
    | .error e => .error e
    | .ok chs =>
      .ok ⟨c.metadata.title, c.metadata.description, breadcrumbsToLinks breadcrumbs,
        List.insertionSort childRel chs, List.insertionSort imageRel imgs⟩

/-- Dimension oracle for the witness: every output file is 900x600. -/
def dimsC9 : FsPath → Except String (Nat × Nat) := fun _ => .ok (900, 600)

/-- Child collection `b`, titled `alpha`. -/
def childColB : Collection :=
  .mk ["in", "b"] .nil
    [⟨["in", "b", "t.jpg"], ["out", "b", "t.jpg"], ["out", "b", "thumbnails", "t.jpg"]⟩]
    ⟨"", "alpha", none⟩ ["in", "b", "t.jpg"]

/-- Child collection `c`, titled `beta`. -/
def childColC : Collection :=
  .mk ["in", "c"] .nil
    [⟨["in", "c", "u.jpg"], ["out", "c", "u.jpg"], ["out", "c", "thumbnails", "u.jpg"]⟩]
    ⟨"", "beta", none⟩ ["in", "c", "u.jpg"]

/-- Parent collection with two items (thumbnails out of order) and the two
children (titles in ascending order). -/
def collC9 : Collection :=
  .mk ["in"] (.cons childColB (.cons childColC .nil))
    [⟨["in", "z.jpg"], ["out", "z.jpg"], ["out", "thumbnails", "z.jpg"]⟩,
     ⟨["in", "a.jpg"], ["out", "a.jpg"], ["out", "thumbnails", "a.jpg"]⟩]
    ⟨"", "in", none⟩ ["in", "z.jpg"]

/-- The unsorted images of `collC9`, in item order. -/
def imgsC9 : List Image :=
  [⟨"z.jpg", ["thumbnails", "z.jpg"], 900, 600⟩,
   ⟨"a.jpg", ["thumbnails", "a.jpg"], 900, 600⟩]

/-- The unsorted children of `collC9`, in discovery order. -/
def chsC9 : List Child :=
  [⟨"b", ["b", "thumbnails", "t.jpg"], "alpha"⟩,
   ⟨"c", ["c", "thumbnails", "u.jpg"], "beta"⟩]

/-- The context emitted for `collC9`: images re-sorted ascending by thumbnail
path, children re-sorted descending by title. -/
def outC9 : Output :=
  ⟨"in", "", [⟨"home", "."⟩],
   [⟨"c", ["c", "thumbnails", "u.jpg"], "beta"⟩,
    ⟨"b", ["b", "thumbnails", "t.jpg"], "alpha"⟩],
   [⟨"a.jpg", ["thumbnails", "a.jpg"], 900, 600⟩,
    ⟨"z.jpg", ["thumbnails", "z.jpg"], 900, 600⟩]⟩

theorem isOlder_getD_true_iff (fs : StatFs) (p q : FsPath) :
    ((isOlder fs p q).toOption.getD false) = true ↔
      ∃ a b, fs.mtime p = .ok a ∧ fs.mtime q = .ok b ∧ a < b := by
  unfold isOlder
  cases h1 : fs.mtime p <;> cases h2 : fs.mtime q <;>
    simp [h1, h2, Except.toOption, Except.bind, bind, pure, Except.pure]

theorem c2_needs_update_characterization (fs : StatFs) (it : Item) :
    Item.needsUpdate fs it = true ↔
      (fs.exists_ it.to_ = false
        ∨ (∃ a b, fs.mtime it.to_ = .ok a ∧ fs.mtime it.from_ = .ok b ∧ a < b)
        ∨ fs.exists_ it.thumbnail = false) := by
  unfold Item.needsUpdate
  simp [Bool.not_eq_true', isOlder_getD_true_iff, or_assoc]

theorem c2_counterexample :
    isStaleSpec statC2 itemC2.thumbnail itemC2.from_
      ∧ ¬ isStaleSpec statC2 itemC2.to_ itemC2.from_
      ∧ Item.needsUpdate statC2 itemC2 = false := by
  refine ⟨Or.inr ⟨1, 5, rfl, rfl, by decide⟩, ?_, rfl⟩
  rintro (h | ⟨a, b, ha, hb, hab⟩)
  · simp [statC2] at h
  · simp [statC2, itemC2] at ha hb
    omega

theorem c10_mtime_error_defaults_not_older (fs : StatFs) (it : Item)
    (h : fs.mtime it.to_ = .error () ∨ fs.mtime it.from_ = .error ()) :
    Item.needsUpdate fs it = (!fs.exists_ it.to_ || !fs.exists_ it.thumbnail) := by
  unfold Item.needsUpdate isOlder
  rcases h with h | h
  · rw [h]; simp [Except.toOption, bind, Except.bind]
  · cases h2 : fs.mtime it.to_ <;> simp [h, h2, Except.toOption, bind, Except.bind]

theorem c10_witness :
    (statC10.mtime itemC2.to_ = .error () ∨ statC10.mtime itemC2.from_ = .error ())
      ∧ Item.needsUpdate statC10 itemC2
          = (!statC10.exists_ itemC2.to_ || !statC10.exists_ itemC2.thumbnail) :=
  ⟨Or.inl rfl, c10_mtime_error_defaults_not_older statC10 itemC2 (Or.inl rfl)⟩

theorem breadcrumbsToLinksAux_length (path : String) (l : List String) :
    (breadcrumbsToLinksAux path l).length = l.length := by
  induction l generalizing path with
  | nil => rfl
  | cons b rest ih => simp [breadcrumbsToLinksAux, ih]

theorem breadcrumbsToLinksAux_getElem? (l : List String) (d i : Nat) :
    (breadcrumbsToLinksAux (dotsPath d) l)[i]? =
      (l[i]?).map (fun b => ⟨b, dotsPath (d + i)⟩) := by
  induction l generalizing d i with
  | nil => simp [breadcrumbsToLinksAux]
  | cons b rest ih =>
    cases i with
    | zero => simp [breadcrumbsToLinksAux]
    | succ i =>
      have hstep : dotsPath d ++ "/.." = dotsPath (d + 1) := rfl
      simp only [breadcrumbsToLinksAux, hstep, List.getElem?_cons_succ, ih]
      have harith : d + 1 + i = d + (i + 1) := by omega
      rw [harith]

theorem c4_breadcrumb_links (bs : List String) :
    (breadcrumbsToLinks bs).length = bs.length
      ∧ (∀ i, (breadcrumbsToLinks bs)[i]? =
          (bs[i]?).map (fun b => (⟨b, dotsPath (bs.length - 1 - i)⟩ : Link)))
      ∧ breadcrumbsToLinks ["foo", "bar", "baz"]
          = [⟨"foo", "./../.."⟩, ⟨"bar", "./.."⟩, ⟨"baz", "."⟩] := by
  have hdot : ("." : String) = dotsPath 0 := rfl
  have hlen : (breadcrumbsToLinks bs).length = bs.length := by
    simp [breadcrumbsToLinks, breadcrumbsToLinksAux_length]
  refine And.intro hlen (And.intro ?_ (by decide))
  intro i
  by_cases h : i < bs.length
  · have haux : (breadcrumbsToLinksAux "." bs.reverse).length = bs.length := by
      simp [breadcrumbsToLinksAux_length]
    rw [breadcrumbsToLinks, List.getElem?_reverse (by omega)]
    rw [haux, hdot, breadcrumbsToLinksAux_getElem?]
    have h2 : bs.length - 1 - i < bs.length := by omega
    rw [List.getElem?_reverse h2]
    have e1 : bs.length - 1 - (bs.length - 1 - i) = i := by omega
    have e2 : 0 + (bs.length - 1 - i) = bs.length - 1 - i := by omega
    rw [e1, e2]
  · have h1 : (breadcrumbsToLinks bs)[i]? = none :=
      List.getElem?_eq_none (by omega)
    have h2 : bs[i]? = none := List.getElem?_eq_none (by omega)
    simp [h1, h2]

theorem itemNew_from {path : FsPath} {cfg : Config} {it : Item}
    (h : itemNew path cfg = .ok it) : it.from_ = path := by
  unfold itemNew at h
  rcases hs : stripRoot cfg.input path with e | rel
  · simp [hs] at h
  · simp only [hs] at h
    rcases hl : path.getLast? with _ | name
    · simp only [hl] at h
      split at h
      · exact absurd h (by simp)
      · exact absurd h (by simp)
    · simp only [hl] at h
      split at h
      · exact absurd h (by simp)
      · simp only [Except.ok.injEq] at h
        rw [← h]

theorem mapItems_ok_from (cfg : Config) (cur : FsPath) :
    ∀ (ns : List String) (its : List Item), mapItems cfg cur ns = .ok its →
      its.map Item.from_ = ns.map (fun n => cur ++ [n]) := by
  intro ns
  induction ns with
  | nil => intro its h; cases h; rfl
  | cons n ns ih =>
    intro its h
    unfold mapItems at h
    rcases hn : itemNew (cur ++ [n]) cfg with e | it
    · simp [hn] at h
    · simp only [hn] at h
      rcases hm : mapItems cfg cur ns with e | its2
      · simp [hm] at h
      · simp only [hm, Except.ok.injEq] at h
        subst h
        simp only [List.map_cons, itemNew_from hn, ih _ hm]

theorem mapItems_ok_nil {cfg : Config} {cur : FsPath} {ns : List String}
    (h : mapItems cfg cur ns = .ok []) : ns = [] := by
  cases ns with
  | nil => rfl
  | cons n ns =>
    unfold mapItems at h
    rcases hn : itemNew (cur ++ [n]) cfg with e | it
    · simp [hn] at h
    · simp only [hn] at h
      rcases hm : mapItems cfg cur ns with e | its2
      · simp [hm] at h
      · simp [hm] at h

theorem collectionNew_dir_ok_some {cfg : Config} {current : FsPath} {entries : FsEntries}
    {c : Collection} (h : collectionNew cfg current (.dir entries) = .ok (some c)) :
    ∃ items meta thumb,
      itemsOf cfg current entries = .ok items
        ∧ (items.isEmpty && (childCollections cfg current entries).isEmpty) = false
        ∧ metadataOf current entries = .ok meta
        ∧ resolveThumbnail meta.thumbnail items (childCollections cfg current entries)
            = .ok thumb
        ∧ c = .mk current (childCollections cfg current entries) items meta thumb := by
  simp only [collectionNew] at h
  rcases hi : itemsOf cfg current entries with e | items
  · simp [hi] at h
  · simp only [hi] at h
    by_cases hg : (items.isEmpty && (childCollections cfg current entries).isEmpty) = true
    · simp [hg] at h
    · have hg2 : (items.isEmpty && (childCollections cfg current entries).isEmpty) = false := by
        revert hg
        cases items.isEmpty && (childCollections cfg current entries).isEmpty <;> simp
      simp only [hg2, Bool.false_eq_true, if_false] at h
      rcases hm : metadataOf current entries with e | meta
      · simp [hm] at h
      · simp only [hm] at h
        rcases ht : resolveThumbnail meta.thumbnail items
            (childCollections cfg current entries) with e | thumb
        · simp [ht] at h
        · simp only [ht, Except.ok.injEq, Option.some.injEq] at h
          exact ⟨items, meta, thumb, rfl, hg2, rfl, ht, h.symm⟩

theorem collectionNew_dir_ok_none_iff (cfg : Config) (current : FsPath) (entries : FsEntries) :
    collectionNew cfg current (.dir entries) = .ok none ↔
      (imageNames entries = [] ∧ childCollections cfg current entries = .nil) := by
  constructor
  · intro h
    simp only [collectionNew] at h
    rcases hi : itemsOf cfg current entries with e | items
    · simp [hi] at h
    · simp only [hi] at h
      by_cases hg : (items.isEmpty && (childCollections cfg current entries).isEmpty) = true
      · rw [Bool.and_eq_true] at hg
        obtain ⟨hg1, hg2⟩ := hg
        have hits : items = [] := by
          cases items
          · rfl
          · exact absurd hg1 (by simp)
        have hch : childCollections cfg current entries = .nil := by
          cases hc : childCollections cfg current entries
          · rfl
          · rw [hc] at hg2; exact absurd hg2 (by simp [CollectionList.isEmpty])
        subst hits
        exact ⟨mapItems_ok_nil hi, hch⟩
      · have hg2 : (items.isEmpty && (childCollections cfg current entries).isEmpty) = false := by
          revert hg
          cases items.isEmpty && (childCollections cfg current entries).isEmpty <;> simp
        simp only [hg2, Bool.false_eq_true, if_false] at h
        rcases hm : metadataOf current entries with e | meta
        · simp [hm] at h
        · simp only [hm] at h
          rcases ht : resolveThumbnail meta.thumbnail items
              (childCollections cfg current entries) with e | thumb
          · simp [ht] at h
          · simp [ht] at h
  · rintro ⟨h1, h2⟩
    have hi : itemsOf cfg current entries = .ok [] := by
      unfold itemsOf
      rw [h1]
      rfl
    simp only [collectionNew]
    simp [hi, h2, CollectionList.isEmpty]

theorem metaThumbOf_some {current : FsPath} {t : FsTree} {keys : List (String × String)}
    {p : FsPath} (h : metaThumbOf current t keys = some p) :
    ∃ rel, p = current ++ rel ∧ (lookupRel t rel).isSome = true := by
  unfold metaThumbOf at h
  rcases hl : lookupLast keys "Thumbnail" with _ | s
  · simp [hl] at h
  · simp only [hl] at h
    by_cases hik : (lookupRel t ((splitChar '/' s.data).map List.asString)).isSome = true
    · rw [if_pos hik] at h
      exact ⟨(splitChar '/' s.data).map List.asString, (Option.some.inj h).symm, hik⟩
    · rw [if_neg hik] at h
      exact absurd h (by simp)

theorem metadataOf_ok_thumbnail {current : FsPath} {entries : FsEntries} {meta : Metadata}
    {p : FsPath} (h : metadataOf current entries = .ok meta)
    (hp : meta.thumbnail = some p) :
    ∃ rel, p = current ++ rel ∧ (lookupRel (.dir entries) rel).isSome = true := by
  unfold metadataOf at h
  rcases hf : findEntry entries "index.md" with _ | t
  · simp only [hf, Except.ok.injEq] at h
    rw [← h] at hp
    exact absurd hp (by simp)
  · rcases t with ⟨m, readable, content⟩ | es
    · simp only [hf] at h
      by_cases hr : readable = true
      · rw [if_pos hr] at h
        replace h := Except.ok.inj h
        rw [← h] at hp
        simp only [metadataFromStr] at hp
        exact metaThumbOf_some hp
      · rw [if_neg hr] at h
        exact absurd h (by simp)
    · simp [hf] at h

theorem childCollections_mem_aux (cfg : Config) (current : FsPath) :
    ∀ (n : Nat) (es : FsEntries), sizeOf es ≤ n →
      ∀ c, c ∈ (childCollections cfg current es).toList →
        ∃ (name : String) (t : FsTree), sizeOf t < sizeOf es
          ∧ collectionNew cfg (current ++ [name]) t = .ok (some c) := by
  intro n
  induction n with
  | zero =>
    intro es hsz c hc
    rcases es with _ | ⟨name, t, rest⟩
    · simp [childCollections, CollectionList.toList] at hc
    · rw [FsEntries.cons.sizeOf_spec] at hsz
      omega
  | succ n ihn =>
    intro es hsz c hc
    rcases es with _ | ⟨name, t, rest⟩
    · simp [childCollections, CollectionList.toList] at hc
    · rw [FsEntries.cons.sizeOf_spec] at hsz
      have hrest : sizeOf rest ≤ n := by omega
      simp only [childCollections] at hc
      by_cases hd : t.isDir = true
      · rw [if_pos hd] at hc
        rcases hr : collectionNew cfg (current ++ [name]) t with e | o
        · rw [hr] at hc
          obtain ⟨n2, t2, h2, h3⟩ := ihn rest hrest c hc
          refine ⟨n2, t2, ?_, h3⟩
          rw [FsEntries.cons.sizeOf_spec]
          omega
        · rcases o with _ | c0
          · rw [hr] at hc
            obtain ⟨n2, t2, h2, h3⟩ := ihn rest hrest c hc
            refine ⟨n2, t2, ?_, h3⟩
            rw [FsEntries.cons.sizeOf_spec]
            omega
          · rw [hr] at hc
            rcases List.mem_cons.mp (by simpa [CollectionList.toList] using hc) with hceq | hmem
            · subst hceq
              refine ⟨name, t, ?_, hr⟩
              rw [FsEntries.cons.sizeOf_spec]
              omega
            · obtain ⟨n2, t2, h2, h3⟩ := ihn rest hrest c hmem
              refine ⟨n2, t2, ?_, h3⟩
              rw [FsEntries.cons.sizeOf_spec]
              omega
      · rw [if_neg hd] at hc
        obtain ⟨n2, t2, h2, h3⟩ := ihn rest hrest c hc
        refine ⟨n2, t2, ?_, h3⟩
        rw [FsEntries.cons.sizeOf_spec]
        omega

theorem childCollections_mem (cfg : Config) (current : FsPath) (es : FsEntries)
    (c : Collection) (hc : c ∈ (childCollections cfg current es).toList) :
    ∃ (name : String) (t : FsTree), sizeOf t < sizeOf es
      ∧ collectionNew cfg (current ++ [name]) t = .ok (some c) :=
  childCollections_mem_aux cfg current (sizeOf es) es le_rfl c hc

theorem collectionNew_allItems_ne_aux (cfg : Config) :
    ∀ (n : Nat) (t : FsTree), sizeOf t ≤ n → ∀ (current : FsPath) (c : Collection),
      collectionNew cfg current t = .ok (some c) → c.allItems ≠ [] := by
  intro n
  induction n with
  | zero =>
    intro t hsz current c h
    rcases t with ⟨m, r, s⟩ | entries
    · simp [collectionNew] at h
    · rw [FsTree.dir.sizeOf_spec] at hsz
      omega
  | succ n ihn =>
    intro t hsz current c h
    rcases t with ⟨m, r, s⟩ | entries
    · simp [collectionNew] at h
    · rw [FsTree.dir.sizeOf_spec] at hsz
      obtain ⟨items, meta, thumb, hi, hg, hm, ht, hc⟩ := collectionNew_dir_ok_some h
      subst hc
      rcases items with _ | ⟨it, its⟩
      · have heq : Collection.allItems
            (.mk current (childCollections cfg current entries) [] meta thumb)
            = CollectionList.allItems (childCollections cfg current entries) := rfl
        rw [heq]
        rcases hch : childCollections cfg current entries with _ | ⟨ch, rest⟩
        · rw [hch] at hg
          exact absurd hg (by simp [CollectionList.isEmpty])
        · have hmem : ch ∈ (childCollections cfg current entries).toList := by
            rw [hch]
            exact List.mem_cons_self _ _
          obtain ⟨name, t2, hlt, hrec⟩ := childCollections_mem cfg current entries ch hmem
          have hne := ihn t2 (by omega) (current ++ [name]) ch hrec
          have heq2 : CollectionList.allItems (.cons ch rest)
              = ch.allItems ++ rest.allItems := rfl
          rw [heq2]
          intro hcontra
          rw [List.append_eq_nil] at hcontra
          exact hne hcontra.1
      · have heq : Collection.allItems
            (.mk current (childCollections cfg current entries) (it :: its) meta thumb)
            = (it :: its) ++ CollectionList.allItems (childCollections cfg current entries) := rfl
        rw [heq, List.cons_append]
        exact List.cons_ne_nil _ _

theorem collectionNew_allItems_ne (cfg : Config) (current : FsPath) (t : FsTree)
    (c : Collection) (h : collectionNew cfg current t = .ok (some c)) :
    c.allItems ≠ [] :=
  collectionNew_allItems_ne_aux cfg (sizeOf t) t le_rfl current c h

/-- C1: for every directory yielding a Collection, the resolved thumbnail
follows strict priority: metadata override first (and the override implies
the referenced path exists under the directory), else the first direct
item's source path, else the first child's resolved thumbnail; with no
candidate, resolution is the `"No thumbnail path"` error. -/
theorem c1_collection_thumbnail_priority (cfg : Config) (current : FsPath) (t : FsTree)
    (c : Collection) (h : collectionNew cfg current t = .ok (some c)) :
    (∀ p, c.metadata.thumbnail = some p →
        c.thumbnail = p ∧ ∃ rel, p = current ++ rel ∧ (lookupRel t rel).isSome = true)
      ∧ (c.metadata.thumbnail = none →
          ∀ it rest, c.items = it :: rest → c.thumbnail = it.from_)
      ∧ (c.metadata.thumbnail = none → c.items = [] →
          ∀ ch rest, c.collections = .cons ch rest → c.thumbnail = ch.thumbnail)
      ∧ resolveThumbnail none [] .nil = .error "No thumbnail path" := by
  rcases t with ⟨m, r, s⟩ | entries
  · simp [collectionNew] at h
  · obtain ⟨items, meta, thumb, hi, hg, hm, ht, hc⟩ := collectionNew_dir_ok_some h
    subst hc
    simp only [Collection.metadata, Collection.items, Collection.collections,
      Collection.thumbnail]
    refine ⟨?_, ?_, ?_, rfl⟩
    · intro p hp
      rw [hp] at ht
      have hres : resolveThumbnail (some p) items (childCollections cfg current entries)
          = .ok p := rfl
      rw [hres] at ht
      exact ⟨(Except.ok.inj ht).symm, metadataOf_ok_thumbnail hm hp⟩
    · intro hnone it rest hits
      rw [hnone, hits] at ht
      have hres : resolveThumbnail none (it :: rest) (childCollections cfg current entries)
          = .ok it.from_ := rfl
      rw [hres] at ht
      exact (Except.ok.inj ht).symm
    · intro hnone hits ch rest hch
      rw [hnone, hits, hch] at ht
      have hres : resolveThumbnail none [] (.cons ch rest) = .ok ch.thumbnail := rfl
      rw [hres] at ht
      exact (Except.ok.inj ht).symm

/-- C1 witness: with an override naming the (existing) second image, the
resolved thumbnail is exactly that image's path. -/
theorem c1_witness : Collection.thumbnail collC1 = ["in", "2.jpg"] :=
  ((c1_collection_thumbnail_priority cfgDemo ["in"] (.dir entriesC1) collC1 rfl).1
    ["in", "2.jpg"] rfl).1

/-- C3: a directory yields no node exactly when it has no image entries and
no surviving child collections, and every node that is built has at least one
item in its subtree. -/
theorem c3_pruning_invariant (cfg : Config) (current : FsPath) :
    (∀ entries, collectionNew cfg current (.dir entries) = .ok none ↔
        (imageNames entries = [] ∧ childCollections cfg current entries = .nil))
      ∧ (∀ t c, collectionNew cfg current t = .ok (some c) → c.allItems ≠ []) :=
  ⟨fun entries => collectionNew_dir_ok_none_iff cfg current entries,
   fun t c h => collectionNew_allItems_ne cfg current t c h⟩

/-- C3 witness: the empty directory is pruned; a one-image collection has a
nonempty flattened item list. -/
theorem c3_witness :
    collectionNew cfgDemo ["in"] (.dir .nil) = .ok none
      ∧ Collection.allItems collC3 ≠ [] :=
  ⟨((c3_pruning_invariant cfgDemo ["in"]).1 .nil).mpr ⟨rfl, rfl⟩,
   (c3_pruning_invariant cfgDemo ["in"]).2 (.dir entriesC3) collC3 rfl⟩

/-- C5 counterexample: `x.Jpg` has extension `Jpg`, which the spec's
case-insensitive reading accepts, but the code's exact comparison rejects it,
so the directory containing only `x.Jpg` is pruned. -/
theorem c5_counterexample :
    isImageEntrySpec "x.Jpg" (.file 0 true "")
      ∧ isImageEntry "x.Jpg" (.file 0 true "") = false
      ∧ collectionNew cfgDemo ["in"]
          (.dir (.cons "x.Jpg" (.file 0 true "") .nil)) = .ok none :=
  ⟨⟨rfl, "Jpg", rfl, Or.inl (by decide)⟩, rfl, rfl⟩

/-- C5 (amended): an entry is classified as an image iff it is a file whose
extension is exactly one of `JPG`, `jpg`, `JPEG`, `jpeg`; the items of a
built collection are exactly the so-classified entries, in enumeration
order. -/
theorem c5_image_classification (cfg : Config) (current : FsPath) (entries : FsEntries)
    (c : Collection) (h : collectionNew cfg current (.dir entries) = .ok (some c)) :
    c.items.map Item.from_ = (imageNames entries).map (fun n => current ++ [n])
      ∧ (∀ name t, isImageEntry name t = true ↔
          (t.isFile = true ∧ ∃ e, extension name = some e ∧
            (e = "JPG" ∨ e = "jpg" ∨ e = "JPEG" ∨ e = "jpeg"))) := by
  obtain ⟨items, meta, thumb, hi, hg, hm, ht, hc⟩ := collectionNew_dir_ok_some h
  subst hc
  constructor
  · simp only [Collection.items]
    unfold itemsOf at hi
    exact mapItems_ok_from cfg current (imageNames entries) items hi
  · intro name t
    rcases t with ⟨m, r, s⟩ | es
    · rcases hx : extension name with _ | e
      · simp [isImageEntry, FsTree.isFile, hx]
      · simp [isImageEntry, FsTree.isFile, hx, isJpegExt, or_assoc]
    · simp [isImageEntry, FsTree.isFile]

/-- C5 witness: in a concrete scan the items are exactly the classified
entries, and an exact-case extension is accepted. -/
theorem c5_witness :
    (Collection.items collC5).map Item.from_
        = (imageNames entriesC5).map (fun n => ["in"] ++ [n])
      ∧ isImageEntry "a.JPG" (.file 0 true "") = true :=
  ⟨(c5_image_classification cfgDemo ["in"] entriesC5 collC5 rfl).1,
   ((c5_image_classification cfgDemo ["in"] entriesC5 collC5 rfl).2 "a.JPG"
      (.file 0 true "")).mpr ⟨rfl, "JPG", rfl, Or.inl rfl⟩⟩

/-- C8 counterexample: the nested directory `a` fails its metadata read, yet
the scan of the root succeeds and simply omits the subtree, instead of
aborting the build. -/
theorem c8_counterexample :
    metadataOf ["in", "a"] entriesC8sub = .error "index.md unreadable"
      ∧ collectionNew cfgDemo ["in"] (.dir entriesC8) = .ok (some collC8)
      ∧ Collection.collections collC8 = .nil :=
  ⟨rfl, rfl, rfl⟩

/-- C8 (amended): a metadata read error is fatal for the directory on which
`Collection::new` itself is invoked (unless the empty-directory check fires
first), while for nested directories any child error is dropped: a directory
whose own items and metadata succeed always scans successfully, whatever
happens in its children. -/
theorem c8_metadata_error_scope :
    (∀ (cfg : Config) (current : FsPath) (entries : FsEntries) (e : String)
        (items : List Item),
      itemsOf cfg current entries = .ok items →
      metadataOf current entries = .error e →
      (items.isEmpty && (childCollections cfg current entries).isEmpty) = false →
      collectionNew cfg current (.dir entries) = .error e)
      ∧ (∀ (cfg : Config) (current : FsPath) (entries : FsEntries)
          (items : List Item) (meta : Metadata),
        itemsOf cfg current entries = .ok items →
        metadataOf current entries = .ok meta →
        ∃ r, collectionNew cfg current (.dir entries) = .ok r) := by
  constructor
  · intro cfg current entries e items hi hm hg
    simp only [collectionNew, hi]
    simp [hg, hm]
  · intro cfg current entries items meta hi hm
    by_cases hg : (items.isEmpty && (childCollections cfg current entries).isEmpty) = true
    · refine ⟨none, ?_⟩
      simp only [collectionNew, hi]
      simp [hg]
    · have hg2 : (items.isEmpty && (childCollections cfg current entries).isEmpty) = false := by
        revert hg
        cases items.isEmpty && (childCollections cfg current entries).isEmpty <;> simp
      rcases hmt : meta.thumbnail with _ | p
      · rcases items with _ | ⟨it, its⟩
        · rcases hch : childCollections cfg current entries with _ | ⟨ch, rest⟩
          · rw [hch] at hg2
            exact absurd hg2 (by simp [CollectionList.isEmpty])
          · refine ⟨some (.mk current (childCollections cfg current entries) [] meta
              ch.thumbnail), ?_⟩
            simp only [collectionNew, hi]
            simp only [hg2, Bool.false_eq_true, if_false, hm]
            have hres : resolveThumbnail meta.thumbnail []
                (childCollections cfg current entries) = .ok ch.thumbnail := by
              rw [hmt, hch]
              rfl
            simp only [hres]
        · refine ⟨some (.mk current (childCollections cfg current entries) (it :: its) meta
            it.from_), ?_⟩
          simp only [collectionNew, hi]
          simp only [hg2, Bool.false_eq_true, if_false, hm]
          have hres : resolveThumbnail meta.thumbnail (it :: its)
              (childCollections cfg current entries) = .ok it.from_ := by
            rw [hmt]
            rfl
          simp only [hres]
      · refine ⟨some (.mk current (childCollections cfg current entries) items meta p), ?_⟩
        simp only [collectionNew, hi]
        simp only [hg2, Bool.false_eq_true, if_false, hm]
        have hres : resolveThumbnail meta.thumbnail items
            (childCollections cfg current entries) = .ok p := by
          rw [hmt]
          rfl
        simp only [hres]

/-- C8 witness: the failing directory aborts its own scan with the error,
while its parent directory scans successfully. -/
theorem c8_witness :
    collectionNew cfgDemo ["in", "a"] (.dir entriesC8sub) = .error "index.md unreadable"
      ∧ ∃ r, collectionNew cfgDemo ["in"] (.dir entriesC8) = .ok r :=
  ⟨c8_metadata_error_scope.1 cfgDemo ["in", "a"] entriesC8sub "index.md unreadable"
      [⟨["in", "a", "x.jpg"], ["out", "a", "x.jpg"], ["out", "a", "thumbnails", "x.jpg"]⟩]
      rfl rfl rfl,
   c8_metadata_error_scope.2 cfgDemo ["in"] entriesC8
      [⟨["in", "y.jpg"], ["out", "y.jpg"], ["out", "thumbnails", "y.jpg"]⟩]
      ⟨"", "in", none⟩ rfl rfl⟩

/-- C7: the build succeeds exactly when discovery and rendering succeed —
per-item outcomes never abort it; each failing item contributes its report
and the rest of the batch is still processed; an empty batch reports
nothing. -/
theorem c7_per_item_failures_not_fatal (cfg : Config) (root : Option FsTree) (fs : StatFs)
    (outcome : Item → Except String Unit) (render : Except String Unit)
    (msgs : List String) :
    (build cfg root fs outcome render = .ok msgs ↔
        ∃ t c, root = some t ∧ collectionNew cfg cfg.input t = .ok (some c)
          ∧ render = .ok ()
          ∧ msgs = pipelineReport outcome
              (c.allItems.filter (fun it => Item.needsUpdate fs it)))
      ∧ (∀ it its, pipelineReport outcome (it :: its) =
          (match outcome it with | .ok _ => [] | .error e => [e])
            ++ pipelineReport outcome its)
      ∧ pipelineReport outcome [] = [] := by
  refine ⟨?_, ?_, rfl⟩
  · constructor
    · intro h
      rcases root with _ | t
      · exact absurd h (by simp [build])
      · simp only [build] at h
        rcases hc : collectionNew cfg cfg.input t with e | o
        · rw [hc] at h
          exact absurd h (by simp)
        · rcases o with _ | c
          · rw [hc] at h
            exact absurd h (by simp)
          · rw [hc] at h
            rcases hr : render with e | u
            · rw [hr] at h
              exact absurd h (by simp)
            · rw [hr] at h
              simp only [Except.ok.injEq] at h
              exact ⟨t, c, rfl, hc, by cases u; rfl, h.symm⟩
    · rintro ⟨t, c, rfl, hc, hrend, rfl⟩
      simp only [build, hc, hrend]
  · intro it its
    cases houtc : outcome it <;> simp [pipelineReport, houtc]

theorem char_toNat_inj {a b : Char} (h : a.toNat = b.toNat) : a = b :=
  Char.eq_of_val_eq (UInt32.ext h)

theorem charListLt_conn : ∀ a b : List Char,
    charListLt a b = false → charListLt b a = false → a = b := by
  intro a
  induction a with
  | nil =>
    intro b h1 h2
    cases b with
    | nil => rfl
    | cons y ys => simp [charListLt] at h1
  | cons x xs ih =>
    intro b h1 h2
    cases b with
    | nil => simp [charListLt] at h2
    | cons y ys =>
      simp only [charListLt] at h1 h2
      by_cases hxy : x.toNat < y.toNat
      · rw [if_pos hxy] at h1
        exact absurd h1 (by simp)
      · rw [if_neg hxy] at h1
        by_cases hyx : y.toNat < x.toNat
        · rw [if_pos hyx] at h2
          exact absurd h2 (by simp)
        · rw [if_neg hyx] at h1
          rw [if_neg hyx, if_neg hxy] at h2
          have hxy2 : x = y := char_toNat_inj (by omega)
          rw [hxy2, ih ys h1 h2]

theorem charListLt_irrefl : ∀ a : List Char, charListLt a a = false := by
  intro a
  induction a with
  | nil => rfl
  | cons x xs ih => simp [charListLt, ih]

theorem charListLt_trans : ∀ a b c : List Char,
    charListLt a b = true → charListLt b c = true → charListLt a c = true := by
  intro a
  induction a with
  | nil =>
    intro b c h1 h2
    cases b with
    | nil => simp [charListLt] at h1
    | cons y ys =>
      cases c with
      | nil => simp [charListLt] at h2
      | cons z zs => simp [charListLt]
  | cons x xs ih =>
    intro b c h1 h2
    cases b with
    | nil => simp [charListLt] at h1
    | cons y ys =>
      cases c with
      | nil => simp [charListLt] at h2
      | cons z zs =>
        simp only [charListLt] at h1 h2 ⊢
        by_cases hxy : x.toNat < y.toNat
        · by_cases hyz : y.toNat < z.toNat
          · rw [if_pos (show x.toNat < z.toNat by omega)]
          · rw [if_neg hyz] at h2
            by_cases hzy : z.toNat < y.toNat
            · rw [if_pos hzy] at h2
              exact absurd h2 (by simp)
            · rw [if_pos (show x.toNat < z.toNat by omega)]
        · rw [if_neg hxy] at h1
          by_cases hyx : y.toNat < x.toNat
          · rw [if_pos hyx] at h1
            exact absurd h1 (by simp)
          · rw [if_neg hyx] at h1
            by_cases hyz : y.toNat < z.toNat
            · rw [if_pos (show x.toNat < z.toNat by omega)]
            · rw [if_neg hyz] at h2
              by_cases hzy : z.toNat < y.toNat
              · rw [if_pos hzy] at h2
                exact absurd h2 (by simp)
              · rw [if_neg hzy] at h2
                rw [if_neg (show ¬ x.toNat < z.toNat by omega),
                  if_neg (show ¬ z.toNat < x.toNat by omega)]
                exact ih ys zs h1 h2

theorem bool_ne_true {b : Bool} (h : ¬ b = true) : b = false := by
  cases b
  · rfl
  · exact absurd rfl h

theorem string_data_inj {a b : String} (h : a.data = b.data) : a = b := by
  cases a
  cases b
  exact congrArg String.mk h

theorem strLtB_conn {a b : String} (h1 : strLtB a b = false) (h2 : strLtB b a = false) :
    a = b :=
  string_data_inj (charListLt_conn a.data b.data h1 h2)

theorem pathLe_total : ∀ p q : FsPath, pathLe p q = true ∨ pathLe q p = true := by
  intro p
  induction p with
  | nil => intro q; exact Or.inl rfl
  | cons a as ih =>
    intro q
    cases q with
    | nil => exact Or.inr rfl
    | cons b bs =>
      simp only [pathLe]
      by_cases hab : strLtB a b = true
      · refine Or.inl ?_
        rw [if_pos hab]
      · by_cases hba : strLtB b a = true
        · refine Or.inr ?_
          rw [if_pos hba]
        · rcases ih bs with h | h
          · refine Or.inl ?_
            rw [if_neg hab, if_neg hba]
            exact h
          · refine Or.inr ?_
            rw [if_neg hba, if_neg hab]
            exact h

theorem pathLe_trans : ∀ p q r : FsPath,
    pathLe p q = true → pathLe q r = true → pathLe p r = true := by
  intro p
  induction p with
  | nil => intro q r h1 h2; rfl
  | cons a as ih =>
    intro q r h1 h2
    cases q with
    | nil => simp [pathLe] at h1
    | cons b bs =>
      cases r with
      | nil => simp [pathLe] at h2
      | cons c cs =>
        simp only [pathLe] at h1 h2 ⊢
        by_cases hab : strLtB a b = true
        · by_cases hbc : strLtB b c = true
          · rw [if_pos (show strLtB a c = true from charListLt_trans a.data b.data c.data hab hbc)]
          · rw [if_neg hbc] at h2
            by_cases hcb : strLtB c b = true
            · rw [if_pos hcb] at h2
              exact absurd h2 (by simp)
            · have hbceq : b = c :=
                strLtB_conn (bool_ne_true hbc) (bool_ne_true hcb)
              rw [if_pos (show strLtB a c = true by rw [← hbceq]; exact hab)]
        · rw [if_neg hab] at h1
          by_cases hba : strLtB b a = true
          · rw [if_pos hba] at h1
            exact absurd h1 (by simp)
          · rw [if_neg hba] at h1
            have habeq : a = b :=
              strLtB_conn (bool_ne_true hab) (bool_ne_true hba)
            by_cases hbc : strLtB b c = true
            · rw [if_pos (show strLtB a c = true by rw [habeq]; exact hbc)]
            · rw [if_neg hbc] at h2
              by_cases hcb : strLtB c b = true
              · rw [if_pos hcb] at h2
                exact absurd h2 (by simp)
              · rw [if_neg hcb] at h2
                rw [if_neg (show ¬ strLtB a c = true by rw [habeq]; exact hbc),
                  if_neg (show ¬ strLtB c a = true by rw [habeq]; exact hcb)]
                exact ih bs cs h1 h2

theorem strLeB_total (a b : String) : strLeB a b = true ∨ strLeB b a = true := by
  unfold strLeB
  by_cases h : charListLt b.data a.data = true
  · right
    by_cases h2 : charListLt a.data b.data = true
    · have h3 := charListLt_trans a.data b.data a.data h2 h
      rw [charListLt_irrefl] at h3
      exact absurd h3 (by simp)
    · rw [Bool.not_eq_true] at h2
      rw [h2]
      rfl
  · left
    rw [Bool.not_eq_true] at h
    rw [h]
    rfl

theorem strLeB_trans (a b c : String) (h1 : strLeB a b = true) (h2 : strLeB b c = true) :
    strLeB a c = true := by
  unfold strLeB at h1 h2 ⊢
  rw [Bool.not_eq_true'] at h1 h2 ⊢
  by_cases hca : charListLt c.data a.data = true
  · by_cases hab : charListLt a.data b.data = true
    · have h3 := charListLt_trans c.data a.data b.data hca hab
      rw [h2] at h3
      exact absurd h3 (by simp)
    · have heq : a.data = b.data :=
        charListLt_conn a.data b.data (bool_ne_true hab) h1
      rw [heq] at hca
      rw [h2] at hca
      exact absurd hca (by simp)
  · exact bool_ne_true hca

/-- C9: an emitted context's images are a permutation of the direct items'
images, sorted ascending by thumbnail path, and its children a permutation of
the direct subcollections' entries, sorted descending by title — whatever
order the inputs were enumerated in. -/
theorem c9_sorted_context (dims : FsPath → Except String (Nat × Nat)) (c : Collection)
    (bs : List String) (out : Output) (imgs : List Image) (chs : List Child)
    (hi : collectResults (imageNew dims) c.items = .ok imgs)
    (hc : collectResults childFrom c.collections.toList = .ok chs)
    (h : renderContext dims c bs = .ok out) :
    out.images.Perm imgs ∧ List.Sorted imageRel out.images
      ∧ out.children.Perm chs ∧ List.Sorted childRel out.children
      ∧ out.title = c.metadata.title ∧ out.breadcrumbs = breadcrumbsToLinks bs := by
  simp only [renderContext, hi, hc, Except.ok.injEq] at h
  rw [← h]
  have hTi : IsTotal Image imageRel := ⟨fun a b => pathLe_total a.thumbnail b.thumbnail⟩
  have hRi : IsTrans Image imageRel :=
    ⟨fun a b c h1 h2 => pathLe_trans a.thumbnail b.thumbnail c.thumbnail h1 h2⟩
  have hTc : IsTotal Child childRel := ⟨fun a b => strLeB_total b.title a.title⟩
  have hRc : IsTrans Child childRel :=
    ⟨fun a b c h1 h2 => strLeB_trans c.title b.title a.title h2 h1⟩
  exact ⟨List.perm_insertionSort imageRel imgs,
    @List.sorted_insertionSort Image imageRel _ hTi hRi imgs,
    List.perm_insertionSort childRel chs,
    @List.sorted_insertionSort Child childRel _ hTc hRc chs,
    rfl, rfl⟩

/-- C9 witness: on a concrete collection whose items and children arrive out
of order, the emitted context is sorted as claimed. -/
theorem c9_witness :
    outC9.images.Perm imgsC9 ∧ List.Sorted imageRel outC9.images
      ∧ outC9.children.Perm chsC9 ∧ List.Sorted childRel outC9.children
      ∧ outC9.title = collC9.metadata.title
      ∧ outC9.breadcrumbs = breadcrumbsToLinks ["home"] :=
  c9_sorted_context dimsC9 collC9 ["home"] outC9 imgsC9 chsC9 rfl rfl rfl
